import Mathlib

/-!
Shallow embedding of `src/mapcamera_x100vi_stock.py` — a one-shot CLI that
fetches a retail search page, normalizes the markup, extracts candidate
snippets around product-name matches (plus JSON-LD structured data), and
classifies each snippet as in-stock / out-of-stock / undetermined by
substring lookup of Japanese keyword literals.

Text is modelled as `List Char`.  Python stdlib calls (`html.unescape`,
`json.loads`, `str()` rendering, regex operations on the fixed literal
patterns the script uses) are modelled executably; restrictions of each
model are stated in its doc comment.  All scanning functions are written
with an explicit fuel argument (structural recursion on the fuel) so that
every definition evaluates inside the kernel; each is invoked with fuel at
least the length of its input, which the scan can never exhaust since every
step consumes at least one character.
-/

/-- Text: Python `str` modelled as a list of characters. -/
abbrev Str := List Char

/-- Python whitespace (`\s` for `str` patterns, and `str.strip()`): ASCII
whitespace plus the two non-ASCII whitespace characters that occur on the
vendor's pages (NBSP and the ideographic space).  Other rare Unicode
whitespace characters are out of the model. -/
def isPyWs (c : Char) : Bool :=
  c = ' ' || c = '\t' || c = '\n' || c = '\r' || c = '\x0b' || c = '\x0c' ||
  c = ' ' || c = '　'

/-- Python `str.strip()`: drop leading and trailing whitespace. -/
def trim (s : Str) : Str :=
  ((s.dropWhile isPyWs).reverse.dropWhile isPyWs).reverse

/-- Case-insensitive character comparison, as used by `re.IGNORECASE`.
`Char.toLower` folds ASCII letters; the patterns the script matches
case-insensitively (`X100VI`, tag names) are ASCII. -/
def lcEq (a b : Char) : Bool := a.toLower = b.toLower

/-- Case-insensitive "needle is a prefix of hay". -/
def lcStartsWith : Str → Str → Bool
  | [], _ => true
  | _ :: _, [] => false
  | k :: ks, c :: cs => lcEq k c && lcStartsWith ks cs

/-- Python `needle in hay` (case-sensitive substring containment). -/
def strContains (needle : Str) : Str → Bool
  | [] => needle.isPrefixOf []
  | hay@(_ :: t) => needle.isPrefixOf hay || strContains needle t

/-- Case-insensitive substring containment (literal regex search under
`re.IGNORECASE`). -/
def strContainsCI (needle : Str) : Str → Bool
  | [] => lcStartsWith needle []
  | hay@(_ :: t) => lcStartsWith needle hay || strContainsCI needle t

/-- Split a string at the first occurrence of character `ch`:
returns (text before it, text after it). -/
def splitAtChar (ch : Char) : Str → Option (Str × Str)
  | [] => none
  | c :: t =>
    if c = ch then some ([], t)
    else
      match splitAtChar ch t with
      | some (b, a) => some (c :: b, a)
      | none => none

/-- Split a string at the first case-insensitive occurrence of the literal
`needle`: returns (text before the occurrence, text after it). -/
def splitAtSubCI (needle : Str) : Str → Option (Str × Str)
  | [] => if needle.isEmpty then some ([], []) else none
  | s@(c :: t) =>
    if lcStartsWith needle s then some ([], s.drop needle.length)
    else
      match splitAtSubCI needle t with
      | some (b, a) => some (c :: b, a)
      | none => none

/-- Modelled from the Python stdlib `html.unescape` entity table, restricted
to the core named references in their `;`-terminated lowercase forms
(`&amp;` `&lt;` `&gt;` `&quot;` `&apos;`).  Numeric references, the many
other HTML5 named references, and the semicolon-less forms `html.unescape`
also accepts are outside the model; on text whose ampersands only start the
five listed entities (or no entity at all) the model agrees with Python. -/
def entityTable : List (Str × Char) :=
  [("amp;".data, '&'), ("lt;".data, '<'), ("gt;".data, '>'),
   ("quot;".data, '"'), ("apos;".data, '\'')]

/-- Try to read one character entity at the head of `s` (the text just after
an `&`); on success return the decoded character and the rest. -/
def matchEntity (s : Str) : Option (Char × Str) :=
  match entityTable.find? (fun e => e.1.isPrefixOf s) with
  | some (pat, c) => some (c, s.drop pat.length)
  | none => none

/-- `html.unescape(value)` (line 63), fuelled scan. -/
def unescapeF : Nat → Str → Str
  | 0, s => s
  | _ + 1, [] => []
  | fuel + 1, c :: t =>
    if c = '&' then
      match matchEntity t with
      | some (ch, rest) => ch :: unescapeF fuel rest
      | none => c :: unescapeF fuel t
    else c :: unescapeF fuel t

/-- `html.unescape(value)` (line 63 of the source). -/
def unescape (s : Str) : Str := unescapeF s.length s

/-- `re.sub(r"<[^>]+>", " ", text)` (line 64), fuelled scan: each maximal
`<`…`>` span with a non-empty body becomes a single space; a `<` with no
later `>` (or immediately followed by `>`) is kept verbatim. -/
def stripTagsF : Nat → Str → Str
  | 0, s => s
  | _ + 1, [] => []
  | fuel + 1, c :: t =>
    if c = '<' then
      match splitAtChar '>' t with
      | some (body, rest) =>
        if body.isEmpty then c :: stripTagsF fuel t
        else ' ' :: stripTagsF fuel rest
      | none => c :: stripTagsF fuel t
    else c :: stripTagsF fuel t

/-- `re.sub(r"<[^>]+>", " ", text)` (line 64 of the source). -/
def stripTags (s : Str) : Str := stripTagsF s.length s

/-- `re.sub(r"\s+", " ", text)` (line 65), fuelled scan: every maximal run
of whitespace becomes a single space. -/
def collapseWsF : Nat → Str → Str
  | 0, s => s
  | _ + 1, [] => []
  | fuel + 1, c :: t =>
    if isPyWs c then ' ' :: collapseWsF fuel (t.dropWhile isPyWs)
    else c :: collapseWsF fuel t

/-- `re.sub(r"\s+", " ", text)` (line 65 of the source). -/
def collapseWs (s : Str) : Str := collapseWsF s.length s

/-- `normalize_text` (lines 62–66): decode entities, then strip tags, then
collapse whitespace, then strip the ends. -/
def normalize_text (value : Str) : Str :=
  trim (collapseWs (stripTags (unescape value)))

/-- `IN_STOCK_KEYWORDS` (lines 20–27). -/
def IN_STOCK_KEYWORDS : List Str :=
  ["在庫あり".data, "在庫有".data, "即納".data,
   "当日出荷".data, "翌日出荷".data, "注文可能".data]

/-- `OUT_OF_STOCK_KEYWORDS` (lines 29–36). -/
def OUT_OF_STOCK_KEYWORDS : List Str :=
  ["在庫なし".data, "入荷待ち".data, "お取り寄せ".data,
   "販売終了".data, "予約受付終了".data, "売り切れ".data]

/-- The `for kw in …: if kw in text: return …` loops of `detect_stock`:
true iff some keyword of the list occurs in the text. -/
def firstContained (kws : List Str) (text : Str) : Bool :=
  match kws with
  | [] => false
  | kw :: rest => if strContains kw text then true else firstContained rest text

/-- `detect_stock` (lines 69–76): check the in-stock keyword list, then the
out-of-stock keyword list; first containment match wins; `none` when
neither list matches. -/
def detect_stock (text : Str) : Option Bool :=
  if firstContained IN_STOCK_KEYWORDS text then some true
  else if firstContained OUT_OF_STOCK_KEYWORDS text then some false
  else none

/-- One position of `re.search(r"X100\s*VI", ·, re.IGNORECASE)`: the fixed
product-name pattern matches here iff `X100` starts here and, after any run
of whitespace, `VI` follows. -/
def flexAt (s : Str) : Bool :=
  lcStartsWith "X100".data s && lcStartsWith "VI".data ((s.drop 4).dropWhile isPyWs)

/-- `re.search(r"X100\s*VI", text, re.IGNORECASE) is not None`: some suffix
of the text matches the fixed product-name pattern at its head. -/
def hasFlex : Str → Bool
  | [] => false
  | s@(_ :: t) => flexAt s || hasFlex t

/-- `re.finditer(keyword_pattern, text, re.IGNORECASE)` for a literal
keyword (line 81), fuelled scan over the text suffix starting at index `i`:
the non-overlapping leftmost case-insensitive occurrences, as
(start, end) index pairs.  The model covers literal keyword patterns —
including the default `X100VI` — not regex metacharacters. -/
def findMatchesF (kw : Str) : Nat → Nat → Str → List (Nat × Nat)
  | 0, _, _ => []
  | _ + 1, i, [] => if kw.isEmpty then [(i, i)] else []
  | fuel + 1, i, s@(_ :: t) =>
    if kw.isEmpty then (i, i) :: findMatchesF kw fuel (i + 1) t
    else if lcStartsWith kw s then
      (i, i + kw.length) :: findMatchesF kw fuel (i + kw.length) (s.drop kw.length)
    else findMatchesF kw fuel (i + 1) t

/-- All matches of the literal keyword in the text (line 81). -/
def findMatches (kw text : Str) : List (Nat × Nat) :=
  findMatchesF kw (text.length + 1) 0 text

/-- The window slice of lines 82–84 for one match `(s, e)`:
`text[max(0, s - window) : min(len(text), e + window)].strip()`.
Natural-number subtraction performs the clamp at 0. -/
def windowSnippet (text : Str) (window : Nat) (m : Nat × Nat) : Str :=
  let start := m.1 - window
  let stop := min text.length (m.2 + window)
  trim ((text.drop start).take (stop - start))

/-- The loop body of `find_keyword_contexts` (lines 81–87): emit each
match's trimmed window, skipping windows that strip to the empty string. -/
def fkcLoop (text : Str) (window : Nat) : List (Nat × Nat) → List Str
  | [] => []
  | m :: rest =>
    let snippet := windowSnippet text window m
    if snippet.isEmpty then fkcLoop text window rest
    else snippet :: fkcLoop text window rest

/-- `find_keyword_contexts` (lines 79–87). -/
def find_keyword_contexts (text kw : Str) (window : Nat) : List Str :=
  fkcLoop text window (findMatches kw text)

/-- A decoded JSON value, as produced by `json.loads`.  Numbers are kept as
their source lexemes (the script never computes with them; a numeric lexeme
contains no letter `X`, so product-name matching is unaffected). -/
inductive Json where
  | null : Json
  | bool : Bool → Json
  | num : Str → Json
  | str : Str → Json
  | arr : List Json → Json
  | obj : List (Str × Json) → Json

/-- JSON inter-token whitespace, exactly the four characters Python's
`json` scanner skips. -/
def isJsonWs (c : Char) : Bool :=
  c = ' ' || c = '\t' || c = '\n' || c = '\r'

/-- Skip JSON whitespace. -/
def skipWs (s : Str) : Str := s.dropWhile isJsonWs

/-- Hex digit value, for `\uXXXX` escapes. -/
def hexVal (c : Char) : Option Nat :=
  if '0' ≤ c ∧ c ≤ '9' then some (c.toNat - '0'.toNat)
  else if 'a' ≤ c ∧ c ≤ 'f' then some (c.toNat - 'a'.toNat + 10)
  else if 'A' ≤ c ∧ c ≤ 'F' then some (c.toNat - 'A'.toNat + 10)
  else none

/-- JSON string body (the text after the opening quote): returns the decoded
content and the text after the closing quote.  Escapes are decoded as in
Python's strict scanner; unescaped control characters are rejected.  Lone
`\uXXXX` escapes map straight to the code point (surrogate-pair joining is
outside the model). -/
def parseStringBody : Nat → Str → Option (Str × Str)
  | 0, _ => none
  | _ + 1, [] => none
  | fuel + 1, c :: t =>
    if c = '"' then some ([], t)
    else if c = '\\' then
      match t with
      | [] => none
      | e :: t2 =>
        let dec : Option (Char × Str) :=
          if e = '"' then some ('"', t2)
          else if e = '\\' then some ('\\', t2)
          else if e = '/' then some ('/', t2)
          else if e = 'b' then some ('\x08', t2)
          else if e = 'f' then some ('\x0c', t2)
          else if e = 'n' then some ('\n', t2)
          else if e = 'r' then some ('\r', t2)
          else if e = 't' then some ('\t', t2)
          else if e = 'u' then
            match t2 with
            | h1 :: h2 :: h3 :: h4 :: t3 =>
              match hexVal h1, hexVal h2, hexVal h3, hexVal h4 with
              | some a, some b, some cc, some d =>
                some (Char.ofNat (((a * 16 + b) * 16 + cc) * 16 + d), t3)
              | _, _, _, _ => none
            | _ => none
          else none
        match dec with
        | some (ch, rest) =>
          match parseStringBody fuel rest with
          | some (body, rest2) => some (ch :: body, rest2)
          | none => none
        | none => none
    else if c.toNat < 0x20 then none
    else
      match parseStringBody fuel t with
      | some (body, rest) => some (c :: body, rest)
      | none => none

/-- JSON number lexeme, per Python's `json` NUMBER_RE:
`-? (0 | [1-9][0-9]*) (\.[0-9]+)? ([eE][+-]?[0-9]+)?`.
Returns the lexeme and the rest of the text. -/
def parseNumber (s : Str) : Option (Str × Str) :=
  let (sign, s1) : Str × Str :=
    match s with
    | '-' :: t => (['-'], t)
    | _ => ([], s)
  match s1 with
  | [] => none
  | d :: _ =>
    if ¬ d.isDigit then none
    else
      let intPart := if d = '0' then [d] else s1.takeWhile Char.isDigit
      let s2 := s1.drop intPart.length
      let (fracPart, s3) : Str × Str :=
        match s2 with
        | '.' :: t =>
          let ds := t.takeWhile Char.isDigit
          if ds.isEmpty then ([], s2) else ('.' :: ds, t.drop ds.length)
        | _ => ([], s2)
      if fracPart.isEmpty ∧ ¬ (s2 = s3) then none
      else
        let (expPart, s4) : Str × Str :=
          match s3 with
          | e :: t =>
            if e = 'e' ∨ e = 'E' then
              let (es, t2) : Str × Str :=
                match t with
                | '+' :: t2 => (['+'], t2)
                | '-' :: t2 => (['-'], t2)
                | _ => ([], t)
              let ds := t2.takeWhile Char.isDigit
              if ds.isEmpty then ([], s3) else (e :: es ++ ds, t2.drop ds.length)
            else ([], s3)
          | [] => ([], s3)
        some (sign ++ intPart ++ fracPart ++ expPart, s4)

/-- Python `dict` insertion for an object member: replace the value in
place when the key exists, else append — the semantics `json.loads`
gives duplicate keys. -/
def objInsert : List (Str × Json) → Str → Json → List (Str × Json)
  | [], k, v => [(k, v)]
  | (k0, v0) :: rest, k, v =>
    if k0 = k then (k0, v) :: rest else (k0, v0) :: objInsert rest k v

mutual

/-- One JSON value at the head of the text (no leading whitespace):
`json.loads`'s scanner, fuelled. -/
def parseValue : Nat → Str → Option (Json × Str)
  | 0, _ => none
  | fuel + 1, s =>
    match s with
    | [] => none
    | c :: t =>
      if c = '{' then parseMembersStart fuel (skipWs t)
      else if c = '[' then parseItemsStart fuel (skipWs t)
      else if c = '"' then
        match parseStringBody (t.length + 1) t with
        | some (body, rest) => some (.str body, rest)
        | none => none
      else if c = 't' then
        if "rue".data.isPrefixOf t then some (.bool true, t.drop 3) else none
      else if c = 'f' then
        if "alse".data.isPrefixOf t then some (.bool false, t.drop 4) else none
      else if c = 'n' then
        if "ull".data.isPrefixOf t then some (.null, t.drop 3) else none
      else if c = 'N' then
        if "aN".data.isPrefixOf t then some (.num "NaN".data, t.drop 2) else none
      else if c = 'I' then
        if "nfinity".data.isPrefixOf t then some (.num "Infinity".data, t.drop 7)
        else none
      else if c = '-' ∧ "Infinity".data.isPrefixOf t then
        some (.num "-Infinity".data, t.drop 8)
      else
        match parseNumber s with
        | some (lex, rest) => some (.num lex, rest)
        | none => none

/-- Object body right after `{` and whitespace: either `}` or members. -/
def parseMembersStart : Nat → Str → Option (Json × Str)
  | 0, _ => none
  | fuel + 1, s =>
    match s with
    | '}' :: t => some (.obj [], t)
    | _ => parseMembers fuel s []

/-- One or more `"key" : value` members separated by commas, ending at `}`. -/
def parseMembers : Nat → Str → List (Str × Json) → Option (Json × Str)
  | 0, _, _ => none
  | fuel + 1, s, acc =>
    match s with
    | '"' :: t =>
      match parseStringBody (t.length + 1) t with
      | none => none
      | some (key, rest) =>
        match skipWs rest with
        | ':' :: rest2 =>
          match parseValue fuel (skipWs rest2) with
          | none => none
          | some (v, rest3) =>
            let acc2 := objInsert acc key v
            match skipWs rest3 with
            | ',' :: rest4 => parseMembers fuel (skipWs rest4) acc2
            | '}' :: rest4 => some (.obj acc2, rest4)
            | _ => none
        | _ => none
    | _ => none

/-- Array body right after `[` and whitespace: either `]` or items. -/
def parseItemsStart : Nat → Str → Option (Json × Str)
  | 0, _ => none
  | fuel + 1, s =>
    match s with
    | ']' :: t => some (.arr [], t)
    | _ => parseItems fuel s []

/-- One or more array items separated by commas, ending at `]`. -/
def parseItems : Nat → Str → List Json → Option (Json × Str)
  | 0, _, _ => none
  | fuel + 1, s, acc =>
    match parseValue fuel s with
    | none => none
    | some (v, rest) =>
      match skipWs rest with
      | ',' :: rest2 => parseItems fuel (skipWs rest2) (acc ++ [v])
      | ']' :: rest2 => some (.arr (acc ++ [v]), rest2)
      | _ => none

end

/-- `json.loads(body)` (line 101): parse one document, allowing surrounding
whitespace and rejecting trailing data; `none` is the `JSONDecodeError`
case. -/
def jsonLoads (s : Str) : Option Json :=
  match parseValue (s.length + 1) (skipWs s) with
  | some (v, rest) => if (skipWs rest).isEmpty then some v else none
  | none => none

/-- Python `repr` of an atomic JSON value, used when rendering the members
of a container (`str(x)` falls back to `repr` inside lists and dicts).
Strings are shown in single quotes; the model does not re-escape quotes or
control characters inside the string (faithful for the plain text JSON-LD
fields carry). Nested containers render as a bracket placeholder; a `name`
field that is itself a doubly nested container is outside the model. -/
def pyReprShallow : Json → Str
  | .null => "None".data
  | .bool true => "True".data
  | .bool false => "False".data
  | .num lex => lex
  | .str s => '\'' :: s ++ ['\'']
  | .arr _ => "[…]".data
  | .obj _ => "{…}".data

/-- Comma-separated join for container rendering. -/
def joinCommaSp : List Str → Str
  | [] => []
  | [x] => x
  | x :: rest => x ++ ", ".data ++ joinCommaSp rest

/-- Python `str(x)` (lines 115–116) for a decoded JSON value: strings
render as themselves, `None`/`True`/`False` as their Python names, numbers
as their lexeme, and containers via `repr` of their members (one level of
nesting modelled faithfully). -/
def pyStr : Json → Str
  | .null => "None".data
  | .bool true => "True".data
  | .bool false => "False".data
  | .num lex => lex
  | .str s => s
  | .arr items => '[' :: joinCommaSp (items.map pyReprShallow) ++ [']']
  | .obj fields =>
    '\x7b' :: joinCommaSp
      (fields.map (fun f => '\'' :: f.1 ++ "': ".data ++ pyReprShallow f.2)) ++
    ['\x7d']

/-- `item.get(key, "")`-style lookup on a decoded object (after `objInsert`
construction, keys are unique). -/
def jget (fields : List (Str × Json)) (key : Str) : Option Json :=
  match fields.find? (fun f => f.1 = key) with
  | some f => some f.2
  | none => none

/-- The generator `walk` (lines 105–112), run to a list, as a fuelled
depth-first worklist: a dict node is yielded and then its values are
walked in order; a list node only walks its items; other nodes yield
nothing.  Called with fuel exceeding the number of decoded nodes (each
node costs at least one character of the parsed text), so the scan never
exhausts it. -/
def walkF : Nat → List Json → List Json
  | 0, _ => []
  | _ + 1, [] => []
  | fuel + 1, j :: rest =>
    match j with
    | .obj fields => j :: walkF fuel (fields.map Prod.snd ++ rest)
    | .arr items => walkF fuel (items ++ rest)
    | _ => walkF fuel rest

/-- The loop body of lines 114–121 for one walked node: for a dict whose
`name` renders non-empty and matches the fixed `X100\s*VI` pattern, the
candidate `f"{name} {avail}".strip()`; otherwise nothing. -/
def emitItem : Json → Option Str
  | .obj fields =>
    let name := pyStr ((jget fields "name".data).getD (.str []))
    let avail := pyStr ((jget fields "availability".data).getD (.str []))
    if name.isEmpty then none
    else if hasFlex name then some (trim (name ++ ' ' :: avail))
    else none
  | _ => none

/-- The `for item in walk(payload)` loop (lines 114–121): collect the
emitted candidates in walk order. -/
def emitLoop : List Json → List Str
  | [] => []
  | item :: rest =>
    match emitItem item with
    | some c => c :: emitLoop rest
    | none => emitLoop rest

/-- The candidates one raw `<script type="application/ld+json">` body
contributes (lines 97–121): strip it, skip it when empty or when
`json.loads` fails, else walk the decoded payload and emit. -/
def blockCandidates (raw : Str) : List Str :=
  let body := trim raw
  if body.isEmpty then []
  else
    match jsonLoads body with
    | none => []
    | some payload => emitLoop (walkF (body.length + 1) [payload])

/-- Fold `blockCandidates` over the extracted blocks in page order
(the `candidates.append` accumulation of lines 91–121). -/
def candidatesFromBlocks : List Str → List Str
  | [] => []
  | b :: rest => blockCandidates b ++ candidatesFromBlocks rest

/-- The four quote spellings the opening-tag regex
`<script[^>]*type=["']application/ld\+json["'][^>]*>` accepts (its two
quote classes are independent, so mismatched quotes also match). -/
def LD_TYPE_VARIANTS : List Str :=
  ["type=\"application/ld+json\"".data,
   "type='application/ld+json'".data,
   "type=\"application/ld+json'".data,
   "type='application/ld+json\"".data]

/-- Does the attribute text (between `<script` and the next `>`) carry the
JSON-LD type attribute, case-insensitively? -/
def typeAttrOk (attrs : Str) : Bool :=
  LD_TYPE_VARIANTS.any (fun v => strContainsCI v attrs)

/-- `re.findall(r"<script[^>]*type=[\"']application/ld\+json[\"'][^>]*>([\s\S]*?)</script>", html, re.IGNORECASE)`
(lines 92–96), fuelled scan: at each position where `<script` starts and
the text up to the next `>` carries the JSON-LD type attribute, capture
the body up to the first `</script>` and continue after it; otherwise
advance one character. -/
def ldJsonBlocksF : Nat → Str → List Str
  | 0, _ => []
  | _ + 1, [] => []
  | fuel + 1, s@(_ :: t) =>
    if lcStartsWith "<script".data s then
      match splitAtChar '>' (s.drop 7) with
      | some (attrs, afterGt) =>
        if typeAttrOk attrs then
          match splitAtSubCI "</script>".data afterGt with
          | some (body, rest) => body :: ldJsonBlocksF fuel rest
          | none => ldJsonBlocksF fuel t
        else ldJsonBlocksF fuel t
      | none => ldJsonBlocksF fuel t
    else ldJsonBlocksF fuel t

/-- The JSON-LD script bodies of the page, in order (lines 92–96). -/
def ldJsonBlocks (html : Str) : List Str :=
  ldJsonBlocksF (html.length + 1) html

/-- `extract_json_product_candidates` (lines 90–122). -/
def extract_json_product_candidates (html : Str) : List Str :=
  candidatesFromBlocks (ldJsonBlocks html)

/-- `re.sub(openTag + r"[\s\S]*?" + closeTag, " ", s, re.IGNORECASE)` for
the literal script/style block patterns of lines 127–128, fuelled scan:
wherever `openTag` starts and `closeTag` occurs later, the whole span
through the first `closeTag` becomes one space; otherwise characters are
kept. -/
def stripBlocksCI (openTag closeTag : Str) : Nat → Str → Str
  | 0, s => s
  | _ + 1, [] => []
  | fuel + 1, s@(c :: t) =>
    if lcStartsWith openTag s then
      match splitAtSubCI closeTag (s.drop openTag.length) with
      | some (_, rest) => ' ' :: stripBlocksCI openTag closeTag fuel rest
      | none => c :: stripBlocksCI openTag closeTag fuel t
    else c :: stripBlocksCI openTag closeTag fuel t

/-- `re.sub(r"<script[\s\S]*?</script>", " ", html, re.IGNORECASE)`
(line 127). -/
def stripScriptBlocks (html : Str) : Str :=
  stripBlocksCI "<script".data "</script>".data (html.length + 1) html

/-- `re.sub(r"<style[\s\S]*?</style>", " ", ·, re.IGNORECASE)` (line 128). -/
def stripStyleBlocks (html : Str) : Str :=
  stripBlocksCI "<style".data "</style>".data (html.length + 1) html

/-- `plain_text` of `build_statuses` (lines 127–129): script and style
blocks removed from the raw markup first, then `normalize_text`. -/
def plainTextOf (html : Str) : Str :=
  normalize_text (stripStyleBlocks (stripScriptBlocks html))

/-- The combined candidate list of lines 131–134: windowed keyword contexts
over the plain text, then the structured-data candidates from the raw
markup. -/
def buildContexts (html kw : Str) (window : Nat) : List Str :=
  find_keyword_contexts (plainTextOf html) kw window ++
    extract_json_product_candidates html

/-- The `uniq`/`seen` loop of lines 136–143: normalize each candidate,
drop empties and candidates already seen, keep first-seen order.  The
Python `set` is modelled as the list of seen snippets (membership-equal). -/
def dedupLoop (seen : List Str) : List Str → List Str
  | [] => []
  | c :: rest =>
    let norm := normalize_text c
    if norm.isEmpty ∨ norm ∈ seen then dedupLoop seen rest
    else norm :: dedupLoop (norm :: seen) rest

/-- The normalize-and-deduplicate step of lines 136–143, from an empty
`seen` set. -/
def dedupStep (contexts : List Str) : List Str :=
  dedupLoop [] contexts

/-- The deduplicated snippet list `uniq` of `build_statuses`. -/
def uniqCandidates (html kw : Str) (window : Nat) : List Str :=
  dedupStep (buildContexts html kw window)

/-- `ProductStatus` (lines 39–43). -/
structure ProductStatus where
  title : Str
  snippet : Str
  in_stock : Option Bool
  deriving DecidableEq

/-- Lines 147–149 for one snippet: the title is the
`re.search(r"[^\n]*X100\s*VI[^\n]*", snippet)` match, stripped, with the
bare `X100VI` as fallback.  Snippets reaching this point are
`normalize_text` outputs and so contain no newline, hence the regex match,
when it exists, is the whole snippet. -/
def mkStatus (snippet : Str) : ProductStatus :=
  let title := if hasFlex snippet then trim snippet else "X100VI".data
  { title := title.take 140, snippet := snippet.take 220,
    in_stock := detect_stock snippet }

/-- `build_statuses` (lines 125–151). -/
def build_statuses (html kw : Str) (window : Nat) : List ProductStatus :=
  (uniqCandidates html kw window).map mkStatus

/-- Does a status record carry `in_stock is True`? (line 159). -/
def isInStockTrue (s : ProductStatus) : Bool :=
  match s.in_stock with
  | some true => true
  | _ => false

/-- The exit code `summarize` returns (lines 154–177); the printed report
is not part of the returned value. -/
def summarize (statuses : List ProductStatus) : Nat :=
  if statuses.isEmpty then 2
  else if statuses.any isInStockTrue then 0
  else 1

/-- The four ways the fetch step can end, from `main`'s `try`/`except`
arms (lines 192–202): a decoded body, an `HTTPError` (status code and
reason phrase), a `URLError` (underlying reason), or any other exception
(its message). -/
inductive FetchOutcome where
  | success (html : Str)
  | httpError (code : Nat) (reason : Str)
  | urlError (reason : Str)
  | otherError (msg : Str)

/-- `f"HTTPエラー: {exc.code} {exc.reason}"` (line 195). -/
def httpMsg (code : Nat) (reason : Str) : Str :=
  "HTTPエラー: ".data ++ (Nat.repr code).data ++ ' ' :: reason

/-- `f"URLエラー: {exc.reason}"` (line 198). -/
def urlMsg (reason : Str) : Str := "URLエラー: ".data ++ reason

/-- `f"取得エラー: {exc}"` (line 201). -/
def fetchMsg (msg : Str) : Str := "取得エラー: ".data ++ msg

/-- `main` after argument parsing (lines 192–205), over the fetch outcome:
the process exit code together with the diagnostic printed to stderr
(`none` on the success path, which proceeds to `build_statuses` and
`summarize`). -/
def mainRun (outcome : FetchOutcome) (kw : Str) (window : Nat) :
    Nat × Option Str :=
  match outcome with
  | .success html => (summarize (build_statuses html kw window), none)
  | .httpError code reason => (3, some (httpMsg code reason))
  | .urlError reason => (3, some (urlMsg reason))
  | .otherError msg => (3, some (fetchMsg msg))

/-- The CLI arguments of `parse_args` (lines 180–186). -/
structure Args where
  url : Str
  keyword : Str
  timeout : Nat
  window : Nat

/-- The defaults of `parse_args`: keyword `X100VI` (an exact literal, no
whitespace flexibility), timeout 20, window 180. -/
def defaultArgs : Args :=
  { url := "https://www.mapcamera.com/search?keyword=X100VI".data,
    keyword := "X100VI".data, timeout := 20, window := 180 }

section Lemmas

/-- If a member keyword is contained in the text, the keyword-list loop
reports a hit. -/
theorem firstContained_of_mem {kws : List Str} {kw text : Str}
    (hmem : kw ∈ kws) (hc : strContains kw text = true) :
    firstContained kws text = true := by
  induction kws with
  | nil => cases hmem
  | cons k rest ih =>
    rcases List.mem_cons.1 hmem with h | h
    · subst h; simp [firstContained, hc]
    · by_cases hk : strContains k text = true <;> simp [firstContained, hk, ih h]

/-- If no member keyword is contained in the text, the keyword-list loop
reports no hit. -/
theorem firstContained_eq_false {kws : List Str} {text : Str}
    (h : ∀ kw ∈ kws, strContains kw text = false) :
    firstContained kws text = false := by
  induction kws with
  | nil => rfl
  | cons k rest ih =>
    simp [firstContained, h k (List.mem_cons_self k rest),
      ih (fun kw hkw => h kw (List.mem_cons_of_mem _ hkw))]

end Lemmas

/-- C1: the classifier checks the ordered in-stock keyword list before the
ordered out-of-stock keyword list, so a snippet containing a keyword of
each list is always classified in-stock: `detect_stock` returns `true`. -/
theorem detect_stock_in_before_out (text : Str)
    (hin : ∃ kw ∈ IN_STOCK_KEYWORDS, strContains kw text = true)
    (_hout : ∃ kw ∈ OUT_OF_STOCK_KEYWORDS, strContains kw text = true) :
    detect_stock text = some true := by
  obtain ⟨kw, hmem, hc⟩ := hin
  simp [detect_stock, firstContained_of_mem hmem hc]

/-- Witness for C1 on a snippet containing `在庫あり` (in-stock) and
`入荷待ち` (out-of-stock). -/
theorem detect_stock_in_before_out_witness :
    detect_stock "X100VI 在庫あり 入荷待ち".data = some true :=
  detect_stock_in_before_out _ (by decide) (by decide)

/-- C2: a text containing no configured in-stock keyword and no configured
out-of-stock keyword as a substring is classified as undetermined:
`detect_stock` returns `none`. -/
theorem detect_stock_none_when_no_keyword (text : Str)
    (hin : ∀ kw ∈ IN_STOCK_KEYWORDS, strContains kw text = false)
    (hout : ∀ kw ∈ OUT_OF_STOCK_KEYWORDS, strContains kw text = false) :
    detect_stock text = none := by
  simp [detect_stock, firstContained_eq_false hin, firstContained_eq_false hout]

/-- Witness for C2 on a keyword-free snippet. -/
theorem detect_stock_none_when_no_keyword_witness :
    detect_stock "FUJIFILM X100VI body".data = none :=
  detect_stock_none_when_no_keyword _ (by decide) (by decide)

/-- C3: `summarize` returns exit code 2 on an empty status list; on a
non-empty list it returns 0 when some record has `in_stock` true and 1
when none has. -/
theorem summarize_exit_codes (statuses : List ProductStatus) :
    (statuses = [] → summarize statuses = 2) ∧
    (statuses ≠ [] → (∃ s ∈ statuses, s.in_stock = some true) →
      summarize statuses = 0) ∧
    (statuses ≠ [] → (∀ s ∈ statuses, s.in_stock ≠ some true) →
      summarize statuses = 1) := by
  refine ⟨fun h => by simp [summarize, h], fun hne hex => ?_, fun hne hall => ?_⟩
  · obtain ⟨s, hmem, hs⟩ := hex
    have hany : statuses.any isInStockTrue = true :=
      List.any_eq_true.2 ⟨s, hmem, by simp [isInStockTrue, hs]⟩
    simp [summarize, hany, hne]
  · have hany : statuses.any isInStockTrue = false := by
      rw [List.any_eq_false]
      intro s hmem
      have := hall s hmem
      cases hin : s.in_stock with
      | none => simp [isInStockTrue, hin]
      | some b => cases b with
        | true => exact absurd hin (hall s hmem)
        | false => simp [isInStockTrue, hin]
    simp [summarize, hany, hne]

/-- Witness for C3: the empty list, a list with an in-stock record, and a
list with only non-in-stock records. -/
theorem summarize_exit_codes_witness :
    summarize [] = 2 ∧
    summarize [⟨"t".data, "s".data, some true⟩] = 0 ∧
    summarize [⟨"t".data, "s".data, some false⟩, ⟨"u".data, "v".data, none⟩] = 1 :=
  ⟨(summarize_exit_codes []).1 rfl,
   (summarize_exit_codes _).2.1 (by decide) ⟨_, List.mem_singleton.2 rfl, rfl⟩,
   (summarize_exit_codes _).2.2 (by decide) (by decide)⟩

/-- The normalizer the spec's words describe for C4 (tags stripped before
entities are decoded), for comparison with the source's `normalize_text`,
which decodes entities first. -/
def normalize_text_specOrder (value : Str) : Str :=
  trim (collapseWs (unescape (stripTags value)))

/-- C4 counterexample: on `&lt;b&gt;` the code's normalizer decodes the
entities first and then strips the resulting `<b>` as a tag, yielding the
empty string, while the spec's order (strip tags, then decode) yields
`<b>`; so entity decoding does not happen after tag stripping. -/
theorem normalize_order_counterexample :
    normalize_text "&lt;b&gt;".data ≠ normalize_text_specOrder "&lt;b&gt;".data ∧
    normalize_text "&lt;b&gt;".data = [] ∧
    normalize_text_specOrder "&lt;b&gt;".data = "<b>".data := by decide

/-- C4 amended: the pipeline removes script and style element bodies first,
then decodes HTML character entities, then strips all remaining tags, and
finally collapses whitespace runs to single spaces and trims the ends —
entity decoding happens before tag stripping, not after. -/
theorem normalize_pipeline_order :
    (∀ html : Str,
      plainTextOf html = normalize_text (stripStyleBlocks (stripScriptBlocks html))) ∧
    (∀ value : Str,
      normalize_text value = trim (collapseWs (stripTags (unescape value)))) :=
  ⟨fun _ => rfl, fun _ => rfl⟩

section DedupLemmas

/-- Every output of the dedup loop is new (not in `seen`), non-empty, and
the normalization of some input candidate. -/
theorem dedupLoop_mem_sound {y : Str} :
    ∀ (l seen : List Str), y ∈ dedupLoop seen l →
      y ∉ seen ∧ ¬ y.isEmpty ∧ ∃ c ∈ l, y = normalize_text c := by
  intro l
  induction l with
  | nil => intro seen h; cases h
  | cons c rest ih =>
    intro seen h
    by_cases hskip : (normalize_text c).isEmpty ∨ normalize_text c ∈ seen
    · rw [dedupLoop, if_pos hskip] at h
      obtain ⟨h1, h2, d, hd, he⟩ := ih seen h
      exact ⟨h1, h2, d, List.mem_cons_of_mem _ hd, he⟩
    · rw [dedupLoop, if_neg hskip] at h
      push_neg at hskip
      rcases List.mem_cons.1 h with h | h
      · subst h
        exact ⟨hskip.2, by simpa using hskip.1, c, List.mem_cons_self _ _, rfl⟩
      · obtain ⟨h1, h2, d, hd, he⟩ := ih _ h
        exact ⟨fun hy => h1 (List.mem_cons_of_mem _ hy), h2, d,
          List.mem_cons_of_mem _ hd, he⟩

/-- The dedup loop emits no duplicates. -/
theorem dedupLoop_nodup : ∀ (l seen : List Str), (dedupLoop seen l).Nodup := by
  intro l
  induction l with
  | nil => intro seen; simp [dedupLoop]
  | cons c rest ih =>
    intro seen
    by_cases hskip : (normalize_text c).isEmpty ∨ normalize_text c ∈ seen
    · rw [dedupLoop, if_pos hskip]; exact ih seen
    · rw [dedupLoop, if_neg hskip]
      refine List.nodup_cons.2 ⟨fun hmem => ?_, ih _⟩
      exact (dedupLoop_mem_sound rest _ hmem).1 (List.mem_cons_self _ _)

/-- On a duplicate-free list of non-empty, unseen fixed points of
`normalize_text`, the dedup loop is the identity. -/
theorem dedupLoop_fixed :
    ∀ (l seen : List Str), l.Nodup →
      (∀ x ∈ l, normalize_text x = x ∧ ¬ x.isEmpty ∧ x ∉ seen) →
      dedupLoop seen l = l := by
  intro l
  induction l with
  | nil => intro seen _ _; rfl
  | cons c rest ih =>
    intro seen hnd hall
    obtain ⟨hfix, hne, hnotseen⟩ := hall c (List.mem_cons_self _ _)
    have hskip : ¬ ((normalize_text c).isEmpty ∨ normalize_text c ∈ seen) := by
      rw [hfix]; push_neg; exact ⟨hne, hnotseen⟩
    rw [dedupLoop, if_neg hskip, hfix]
    have hrest : dedupLoop (c :: seen) rest = rest := by
      refine ih _ (List.nodup_cons.1 hnd).2 (fun x hx => ?_)
      obtain ⟨h1, h2, h3⟩ := hall x (List.mem_cons_of_mem _ hx)
      refine ⟨h1, h2, fun hmem => ?_⟩
      rcases List.mem_cons.1 hmem with h | h
      · exact (List.nodup_cons.1 hnd).1 (h ▸ hx)
      · exact h3 h
    rw [hrest]

end DedupLemmas

/-- C5 counterexample: on the candidate list `["&amp;amp;"]` the
normalize-and-dedup step yields `["&amp;"]` once and `["&"]` twice —
`normalize_text` is not idempotent on doubly escaped entities, so neither
is the step. -/
theorem dedup_idempotence_counterexample :
    dedupStep (dedupStep ["&amp;amp;".data]) ≠ dedupStep ["&amp;amp;".data] ∧
    dedupStep ["&amp;amp;".data] = ["&amp;".data] ∧
    dedupStep (dedupStep ["&amp;amp;".data]) = ["&".data] := by decide

/-- C5 amended: the normalize-and-dedup step is idempotent on every
candidate list whose candidates normalize to fixed points of
`normalize_text` (in particular, candidates free of entity escapes); in
general a second application can decode further, as the counterexample
shows. -/
theorem dedupStep_idempotent_on_normalized (l : List Str)
    (h : ∀ c ∈ l, normalize_text (normalize_text c) = normalize_text c) :
    dedupStep (dedupStep l) = dedupStep l := by
  refine dedupLoop_fixed _ _ (dedupLoop_nodup _ _) (fun x hx => ?_)
  obtain ⟨_, hne, c, hc, he⟩ := dedupLoop_mem_sound _ _ hx
  refine ⟨?_, hne, by simp⟩
  rw [he]; exact h c hc

/-- Witness for C5 (amended) on a list with a repeated, already-normal
candidate. -/
theorem dedupStep_idempotent_witness :
    dedupStep (dedupStep ["abc".data, "abc".data, "x y".data]) =
      dedupStep ["abc".data, "abc".data, "x y".data] :=
  dedupStep_idempotent_on_normalized _ (by decide)

/-- The context loop is the match list mapped through the window slice,
with empty (whitespace-only) snippets dropped. -/
theorem fkcLoop_eq_filter_map (text : Str) (w : Nat) (ms : List (Nat × Nat)) :
    fkcLoop text w ms =
      (ms.map (windowSnippet text w)).filter (fun s => ¬ s.isEmpty) := by
  induction ms with
  | nil => rfl
  | cons m rest ih =>
    by_cases h : (windowSnippet text w m).isEmpty <;>
      simp [fkcLoop, h, ih, List.filter]

/-- C6 counterexample: the default `--keyword` is the exact literal
`X100VI`, not the whitespace-flexible product-name pattern: on a text that
matches `X100\s*VI` (flexible internal whitespace) the extractor run with
the default keyword emits no window at all. -/
theorem window_extractor_default_counterexample :
    hasFlex "FUJIFILM X100 VI 在庫あり".data = true ∧
    find_keyword_contexts "FUJIFILM X100 VI 在庫あり".data
      defaultArgs.keyword 180 = [] := by decide

/-- C6 amended: the default keyword is the exact literal `X100VI` (no
internal-whitespace flexibility); for every case-insensitive match of a
literal keyword pattern, the extractor emits the window from `window`
characters before the match start (clamped at 0) to `window` characters
after its end (clamped at the text length), trimmed, except that windows
that trim to the empty string are dropped; each match yields its own
independent entry — overlapping windows are not merged. -/
theorem find_keyword_contexts_windows (text kw : Str) (window : Nat) :
    defaultArgs.keyword = "X100VI".data ∧
    find_keyword_contexts text kw window =
      ((findMatches kw text).map (windowSnippet text window)).filter
        (fun s => ¬ s.isEmpty) :=
  ⟨rfl, fkcLoop_eq_filter_map text window (findMatches kw text)⟩

section JsonLemmas

/-- The emission loop is `filterMap emitItem` over the walked nodes. -/
theorem emitLoop_eq_filterMap (items : List Json) :
    emitLoop items = items.filterMap emitItem := by
  induction items with
  | nil => rfl
  | cons j rest ih =>
    cases h : emitItem j <;> simp [emitLoop, h, ih]

/-- A block whose stripped body does not parse as JSON contributes no
candidates. -/
theorem blockCandidates_eq_nil_of_fail {b : Str}
    (h : jsonLoads (trim b) = none) : blockCandidates b = [] := by
  by_cases he : (trim b).isEmpty <;> simp [blockCandidates, he, h]

/-- Candidate collection distributes over block-list concatenation. -/
theorem candidatesFromBlocks_append (bs₁ bs₂ : List Str) :
    candidatesFromBlocks (bs₁ ++ bs₂) =
      candidatesFromBlocks bs₁ ++ candidatesFromBlocks bs₂ := by
  induction bs₁ with
  | nil => rfl
  | cons b rest ih => simp [candidatesFromBlocks, ih]

/-- Unpacking a successful emission: the node is a dict whose rendered
`name` is non-empty and matches the fixed product pattern, and the
candidate is the stripped space-join of `name` and `availability`
(the empty string when absent). -/
theorem emitItem_some {j : Json} {c : Str} (h : emitItem j = some c) :
    ∃ fields name avail,
      j = Json.obj fields ∧
      name = pyStr ((jget fields "name".data).getD (Json.str [])) ∧
      avail = pyStr ((jget fields "availability".data).getD (Json.str [])) ∧
      ¬ name.isEmpty ∧ hasFlex name = true ∧ c = trim (name ++ ' ' :: avail) := by
  cases j with
  | obj fields =>
    refine ⟨fields, _, _, rfl, rfl, rfl, ?_⟩
    by_cases h1 : (pyStr ((jget fields "name".data).getD (Json.str []))).isEmpty
    · simp [emitItem, h1] at h
    · by_cases h2 :
        hasFlex (pyStr ((jget fields "name".data).getD (Json.str []))) = true
      · simp [emitItem, h1, h2] at h
        exact ⟨h1, h2, h.symm⟩
      · simp [emitItem, h1, h2] at h
  | null => simp [emitItem] at h
  | bool b => simp [emitItem] at h
  | num l => simp [emitItem] at h
  | str s => simp [emitItem] at h
  | arr items => simp [emitItem] at h

/-- Every collected candidate is the emission of some walked node. -/
theorem mem_candidatesFromBlocks_emit {bs : List Str} {c : Str}
    (h : c ∈ candidatesFromBlocks bs) : ∃ j, emitItem j = some c := by
  induction bs with
  | nil => cases h
  | cons b rest ih =>
    rcases List.mem_append.1 h with h | h
    · by_cases he : (trim b).isEmpty
      · simp [blockCandidates, he] at h
      · cases hp : jsonLoads (trim b) with
        | none => rw [blockCandidates_eq_nil_of_fail hp] at h; cases h
        | some payload =>
          simp only [blockCandidates, he, if_false, Bool.false_eq_true, hp,
            emitLoop_eq_filterMap] at h
          obtain ⟨j, _, hj⟩ := List.mem_filterMap.1 h
          exact ⟨j, hj⟩
    · exact ih h

end JsonLemmas

/-- C7: the structured-data extractor parses each embedded JSON-LD script
block as JSON; a block that fails to parse is skipped silently and leaves
the candidates of the other blocks unchanged; the decoded structure is
walked and every dict whose rendered `name` matches the product pattern
emits the stripped space-join of its `name` and `availability` fields
(`availability` rendering to the empty string when absent). -/
theorem extract_jsonld_parse_and_emit :
    (∀ (bs₁ bs₂ : List Str) (b : Str), jsonLoads (trim b) = none →
      candidatesFromBlocks (bs₁ ++ b :: bs₂) = candidatesFromBlocks (bs₁ ++ bs₂)) ∧
    (∀ html : Str,
      extract_json_product_candidates html = candidatesFromBlocks (ldJsonBlocks html)) ∧
    (∀ items : List Json, emitLoop items = items.filterMap emitItem) ∧
    (∀ (j : Json) (c : Str), emitItem j = some c →
      ∃ fields name avail,
        j = Json.obj fields ∧
        name = pyStr ((jget fields "name".data).getD (Json.str [])) ∧
        avail = pyStr ((jget fields "availability".data).getD (Json.str [])) ∧
        ¬ name.isEmpty ∧ hasFlex name = true ∧ c = trim (name ++ ' ' :: avail)) := by
  refine ⟨fun bs₁ bs₂ b hb => ?_, fun _ => rfl, emitLoop_eq_filterMap,
    fun _ _ => emitItem_some⟩
  rw [candidatesFromBlocks_append, candidatesFromBlocks_append]
  show candidatesFromBlocks bs₁ ++ (blockCandidates b ++ candidatesFromBlocks bs₂) = _
  rw [blockCandidates_eq_nil_of_fail hb, List.nil_append]

/-- Witness for C7: inserting a malformed block between two well-formed
blocks leaves the candidate list unchanged. -/
theorem extract_jsonld_parse_and_emit_witness :
    candidatesFromBlocks
      ["\x7b\"name\":\"X100VI\"\x7d".data, "\x7bbad".data,
       "\x7b\"name\":\"X100VI kit\",\"availability\":\"InStock\"\x7d".data] =
    candidatesFromBlocks
      ["\x7b\"name\":\"X100VI\"\x7d".data,
       "\x7b\"name\":\"X100VI kit\",\"availability\":\"InStock\"\x7d".data] :=
  extract_jsonld_parse_and_emit.1 ["\x7b\"name\":\"X100VI\"\x7d".data]
    ["\x7b\"name\":\"X100VI kit\",\"availability\":\"InStock\"\x7d".data]
    "\x7bbad".data rfl

/-- C8: every built status comes from an untruncated snippet of the
deduplicated candidate list; its stored classification is computed from
that full snippet, its displayed snippet is the 220-character truncation
and its title is bounded by 140 characters — truncation is display-only
and non-destructive to classification. -/
theorem build_statuses_truncation_nondestructive (html kw : Str) (window : Nat)
    (st : ProductStatus) (h : st ∈ build_statuses html kw window) :
    ∃ s ∈ uniqCandidates html kw window,
      st = mkStatus s ∧ st.in_stock = detect_stock s ∧
      st.snippet = s.take 220 ∧ st.title.length ≤ 140 := by
  obtain ⟨s, hs, hst⟩ := List.mem_map.1 h
  subst hst
  exact ⟨s, hs, rfl, rfl, rfl, List.length_take_le _ _⟩

/-- Witness for C8 on a page with one in-stock candidate. -/
theorem build_statuses_truncation_witness :
    ∃ s ∈ uniqCandidates "<p>X100VI 在庫あり</p>".data "X100VI".data 180,
      (⟨"X100VI 在庫あり".data, "X100VI 在庫あり".data, some true⟩ : ProductStatus)
          = mkStatus s ∧
      (⟨"X100VI 在庫あり".data, "X100VI 在庫あり".data, some true⟩ : ProductStatus).in_stock
          = detect_stock s ∧
      (⟨"X100VI 在庫あり".data, "X100VI 在庫あり".data, some true⟩ : ProductStatus).snippet
          = s.take 220 ∧
      (⟨"X100VI 在庫あり".data, "X100VI 在庫あり".data, some true⟩ : ProductStatus).title.length
          ≤ 140 :=
  build_statuses_truncation_nondestructive _ _ _ _ (by decide)

/-- Substring containment follows from prefix containment. -/
theorem strContains_of_isPrefixOf {needle hay : Str}
    (h : needle.isPrefixOf hay = true) : strContains needle hay = true := by
  cases hay <;> simp [strContains, h]

/-- A string contains any middle segment of a three-part concatenation. -/
theorem strContains_append (pre needle post : Str) :
    strContains needle (pre ++ (needle ++ post)) = true := by
  induction pre with
  | nil =>
    exact strContains_of_isPrefixOf
      (List.isPrefixOf_iff_prefix.2 (List.prefix_append _ _))
  | cons c rest ih => simp [strContains, ih]

/-- C9: each fetch-level failure yields exit code 3 with a diagnostic on
standard error; the three failure kinds produce pairwise distinct reports,
the HTTP one carrying the decimal status code (followed by the reason
phrase), the URL one its underlying reason, the generic one the
exception's message. -/
theorem fetch_failure_exit3 (code : Nat) (reason msg kw : Str) (window : Nat) :
    mainRun (.httpError code reason) kw window = (3, some (httpMsg code reason)) ∧
    mainRun (.urlError reason) kw window = (3, some (urlMsg reason)) ∧
    mainRun (.otherError msg) kw window = (3, some (fetchMsg msg)) ∧
    strContains (Nat.repr code).data (httpMsg code reason) = true ∧
    httpMsg code reason ≠ urlMsg reason ∧
    httpMsg code reason ≠ fetchMsg msg ∧
    urlMsg reason ≠ fetchMsg msg := by
  refine ⟨rfl, rfl, rfl, ?_, ?_, ?_, ?_⟩
  · rw [httpMsg, List.append_assoc]
    exact strContains_append _ _ _
  · intro h
    have h2 := congrArg List.head? h
    rw [show (httpMsg code reason).head? = some 'H' from rfl,
        show (urlMsg reason).head? = some 'U' from rfl] at h2
    exact absurd h2 (by decide)
  · intro h
    have h2 := congrArg List.head? h
    rw [show (httpMsg code reason).head? = some 'H' from rfl,
        show (fetchMsg msg).head? = some '取' from rfl] at h2
    exact absurd h2 (by decide)
  · intro h
    have h2 := congrArg List.head? h
    rw [show (urlMsg reason).head? = some 'U' from rfl,
        show (fetchMsg msg).head? = some '取' from rfl] at h2
    exact absurd h2 (by decide)

/-- C10: the structured-data candidates `build_statuses` appends after the
windowed contexts are the same list for every keyword argument (and every
window), because `extract_json_product_candidates` matches names against
the fixed `X100\s*VI` pattern, not the configured keyword. -/
theorem structured_extraction_keyword_independent :
    (∀ (html kw₁ kw₂ : Str) (w₁ w₂ : Nat),
      (buildContexts html kw₁ w₁).drop
          (find_keyword_contexts (plainTextOf html) kw₁ w₁).length =
        (buildContexts html kw₂ w₂).drop
          (find_keyword_contexts (plainTextOf html) kw₂ w₂).length) ∧
    (∀ (html kw : Str) (w : Nat),
      (buildContexts html kw w).drop
          (find_keyword_contexts (plainTextOf html) kw w).length =
        extract_json_product_candidates html) ∧
    (∀ (html c : Str), c ∈ extract_json_product_candidates html →
      ∃ name avail : Str, ¬ name.isEmpty ∧ hasFlex name = true ∧
        c = trim (name ++ ' ' :: avail)) := by
  have hdrop : ∀ (html kw : Str) (w : Nat),
      (buildContexts html kw w).drop
          (find_keyword_contexts (plainTextOf html) kw w).length =
        extract_json_product_candidates html := by
    intro html kw w
    exact List.drop_left _ _
  refine ⟨fun html kw₁ kw₂ w₁ w₂ => ?_, hdrop, fun html c hc => ?_⟩
  · rw [hdrop, hdrop]
  · obtain ⟨j, hj⟩ := mem_candidatesFromBlocks_emit hc
    obtain ⟨fields, name, avail, _, _, _, hne, hflex, hc'⟩ := emitItem_some hj
    exact ⟨name, avail, hne, hflex, hc'⟩

/-- Witness for C10 on a page with one JSON-LD product block. -/
theorem structured_extraction_keyword_independent_witness :
    ∃ name avail : Str, ¬ name.isEmpty ∧ hasFlex name = true ∧
      "FUJIFILM X100VI InStock".data = trim (name ++ ' ' :: avail) :=
  structured_extraction_keyword_independent.2.2
    "<script type=\"application/ld+json\">\x7b\"@type\":\"Product\",\"name\":\"FUJIFILM X100VI\",\"availability\":\"InStock\"\x7d</script>".data
    "FUJIFILM X100VI InStock".data (by decide)
